import Mathlib

/-!
Verification of the tidy-data reshape pipeline of `src/Tidy.ipynb`:
cleaning of the raw NBA games table, the wide-to-long melt into team
appearances, the per-team rest-days diff, the long-to-wide pivot, the
join back onto the games table, and the rest-advantage analysis.

Dates are embedded as day numbers (the count of days since the civil
epoch 1970-01-01), so that subtracting two dates gives exactly the
`.dt.days` value pandas produces for day-resolution timestamps.
Missing values (pandas `NaN` / `NaT`) are embedded as `none`.
-/

namespace Tidy

/-! ### Calendar dates -/

/-- Leap-year test of the proleptic Gregorian calendar. -/
def isLeapYear (y : Int) : Bool :=
  y % 4 == 0 && (y % 100 != 0 || y % 400 == 0)

/-- Number of days in a month of the proleptic Gregorian calendar. -/
def daysInMonth (y : Int) (m : Nat) : Nat :=
  if m = 2 then (if isLeapYear y then 29 else 28)
  else if m = 4 ∨ m = 6 ∨ m = 9 ∨ m = 11 then 30
  else 31

/-- Day number of a civil date (days since 1970-01-01, negative before).
This is the standard days-from-civil computation, matching the day
arithmetic of pandas timestamps. -/
def daysFromCivil (y : Int) (m : Nat) (d : Nat) : Int :=
  let y2 : Int := if m ≤ 2 then y - 1 else y
  let era : Int := (if 0 ≤ y2 then y2 else y2 - 399) / 400
  let yoe : Int := y2 - era * 400
  let mp : Int := ((m : Int) + 9) % 12
  let doy : Int := (153 * mp + 2) / 5 + (d : Int) - 1
  let doe : Int := yoe * 365 + yoe / 4 - yoe / 100 + doy
  era * 146097 + doe - 719468

/-- Month-abbreviation table of the `%b` directive. -/
def monthAbbrevs : List (String × Nat) :=
  [("Jan", 1), ("Feb", 2), ("Mar", 3), ("Apr", 4), ("May", 5), ("Jun", 6),
   ("Jul", 7), ("Aug", 8), ("Sep", 9), ("Oct", 10), ("Nov", 11), ("Dec", 12)]

/-- Weekday-abbreviation table of the `%a` directive.  As in `strptime`,
the weekday name is parsed but not checked for consistency with the date. -/
def weekdayAbbrevs : List String :=
  ["Mon", "Tue", "Wed", "Thu", "Fri", "Sat", "Sun"]

/-- Parse a date string of the format `%a, %b %d, %Y`
(e.g. `"Tue, Oct 27, 2015"`) into its day number, as
`pd.to_datetime(..., format='%a, %b %d, %Y')` does; `none` on failure. -/
def parseDate (s : String) : Option Int :=
  match s.splitOn ", " with
  | [wd, md, y] =>
    match md.splitOn " " with
    | [mo, d] =>
      if weekdayAbbrevs.contains wd then
        match monthAbbrevs.lookup mo, d.toNat?, y.toNat? with
        | some m, some dn, some yn =>
          if 1 ≤ dn ∧ dn ≤ daysInMonth (yn : Int) m then
            some (daysFromCivil (yn : Int) m dn)
          else none
        | _, _, _ => none
      else none
    | _ => none
  | _ => none

/-! ### The raw table and the cleaning chain

The raw CSV has nine columns
`Date, Start (ET), Unnamed: 2, Visitor/Neutral, PTS, Home/Neutral, PTS.1,
Unnamed: 7, Notes`; each cell may be missing.  The cleaning chain of the
notebook renames the columns, drops rows with fewer than 4 non-missing
fields (`dropna(thresh=4)` keeps rows with at least 4 non-NA values),
keeps the five columns of interest, parses the date column, indexes by
`(game_id, date)` where `game_id` is the original row position, and
sorts by that index. -/

structure RawRow where
  date : Option String
  start : Option String
  box : Option String
  away_team : Option String
  away_points : Option Int
  home_team : Option String
  home_points : Option Int
  unnamed7 : Option String
  notes : Option String
deriving DecidableEq, Repr

/-- Number of non-missing fields of a raw row (out of 9). -/
def countNonMissing (r : RawRow) : Nat :=
  [r.date.isSome, r.start.isSome, r.box.isSome, r.away_team.isSome,
   r.away_points.isSome, r.home_team.isSome, r.home_points.isSome,
   r.unnamed7.isSome, r.notes.isSome].count true

/-- The rows kept by `dropna(thresh=4)`: at least 4 non-missing fields. -/
def keptRows (rs : List RawRow) : List RawRow :=
  rs.filter (fun r => decide (4 ≤ countNonMissing r))

/-- A cleaned game row. `game_id` is the original row position in the
raw table; `date` is the parsed date (`none` embeds `NaT`, which
`pd.to_datetime` yields for a missing date cell). -/
structure Game where
  game_id : Nat
  date : Option Int
  away_team : Option String
  away_points : Option Int
  home_team : Option String
  home_points : Option Int
deriving DecidableEq, Repr

/-- Parse one kept raw row into a `Game`.  A present but unparseable
date string is fatal for the run (`pd.to_datetime` raises), while a
missing date cell becomes `NaT`. -/
def toGame (i : Nat) (r : RawRow) : Except String Game :=
  match r.date with
  | none => .ok ⟨i, none, r.away_team, r.away_points, r.home_team, r.home_points⟩
  | some s =>
    match parseDate s with
    | none => .error s
    | some d => .ok ⟨i, some d, r.away_team, r.away_points, r.home_team, r.home_points⟩

/-- The cleaning loop: number the rows from `i`, keep those with at
least 4 non-missing fields, parse them. -/
def cleanGo (i : Nat) : List RawRow → Except String (List Game)
  | [] => .ok []
  | r :: rs =>
    if 4 ≤ countNonMissing r then
      match toGame i r with
      | .error e => .error e
      | .ok g => (cleanGo (i + 1) rs).map (fun gs => g :: gs)
    else cleanGo (i + 1) rs

/-- Sort key of `games.sort_index()`: the `(game_id, date)` multi-index,
game id first; a `NaT` date sorts last within a game id. -/
def gameLE (a b : Game) : Prop :=
  a.game_id < b.game_id ∨
    (a.game_id = b.game_id ∧
      ((if a.date.isSome then (0 : Nat) else 1) < (if b.date.isSome then (0 : Nat) else 1) ∨
        ((if a.date.isSome then (0 : Nat) else 1) = (if b.date.isSome then (0 : Nat) else 1) ∧
          a.date.getD 0 ≤ b.date.getD 0)))

instance : DecidableRel gameLE := fun a b => by
  unfold gameLE; infer_instance

instance : IsTotal Game gameLE := ⟨by
  intro a b; unfold gameLE; omega⟩

instance : IsTrans Game gameLE := ⟨by
  intro a b c; unfold gameLE; omega⟩

/-- The full cleaning chain producing the `games` table. -/
def cleanGames (rs : List RawRow) : Except String (List Game) :=
  (cleanGo 0 rs).map (fun gs => List.insertionSort gameLE gs)

/-! ### The Reshaper (melt) -/

/-- The `home_away` discriminator column produced by
`melt(var_name='home_away')`; its values are the names of the melted
columns, `away_team` and `home_team`. -/
inductive Role where
  | away_team : Role
  | home_team : Role
deriving DecidableEq, Repr

/-- A long-format team appearance: one row of the `teams` table. -/
structure Appearance where
  game_id : Nat
  date : Option Int
  home_away : Role
  team : Option String
deriving DecidableEq, Repr

/-- The away-side row melt produces for a game. -/
def awayApp (g : Game) : Appearance :=
  ⟨g.game_id, g.date, Role.away_team, g.away_team⟩

/-- The home-side row melt produces for a game. -/
def homeApp (g : Game) : Appearance :=
  ⟨g.game_id, g.date, Role.home_team, g.home_team⟩

/-- `melt(id_vars=['game_id','date'], value_vars=['away_team','home_team'])`:
the away-side block (in table order) followed by the home-side block. -/
def meltRows (gs : List Game) : List Appearance :=
  gs.map awayApp ++ gs.map homeApp

/-- Sort key of `sort_values(['game_id', 'date'])` on appearances:
game id first, then date, a missing date sorting last. -/
def appLE (a b : Appearance) : Prop :=
  a.game_id < b.game_id ∨
    (a.game_id = b.game_id ∧
      ((if a.date.isSome then (0 : Nat) else 1) < (if b.date.isSome then (0 : Nat) else 1) ∨
        ((if a.date.isSome then (0 : Nat) else 1) = (if b.date.isSome then (0 : Nat) else 1) ∧
          a.date.getD 0 ≤ b.date.getD 0)))

instance : DecidableRel appLE := fun a b => by
  unfold appLE; infer_instance

instance : IsTotal Appearance appLE := ⟨by
  intro a b; unfold appLE; omega⟩

instance : IsTrans Appearance appLE := ⟨by
  intro a b c; unfold appLE; omega⟩

/-- The `teams` table: melt the games, then `sort_values(['game_id', 'date'])`. -/
def teams (gs : List Game) : List Appearance :=
  List.insertionSort appLE (meltRows gs)

/-! ### The Rest-Days Calculator

Modelled from the spec: the notebook loads the groupby solution from
`solutions/tidy_groupby_rest.py`, which is not part of the source tree;
only its single-team form `bulls['date'].diff().dt.days - 1` is.  Per
spec §4.2 the grouped computation partitions the appearances by team
name and, within each partition in table order, takes the difference of
consecutive dates in days minus one, the first appearance of each
partition getting a missing value.  Rows with a missing team name belong
to no group (`groupby` drops `NaN` keys) and get a missing value. -/

/-- Look up the date of the previous appearance recorded for team `t`
(`some none` means the previous appearance had a `NaT` date;
`none` means no previous appearance). -/
def prevOf (t : String) : List (String × Option Int) → Option (Option Int)
  | [] => none
  | (s, d) :: m => if s = t then some d else prevOf t m

/-- One pass of `teams.groupby('team')['date'].diff().dt.days - 1`,
carrying the last seen date of each team. -/
def restGo (m : List (String × Option Int)) : List Appearance → List (Option Int)
  | [] => []
  | r :: rs =>
    match r.team with
    | none => none :: restGo m rs
    | some t =>
      (match prevOf t m, r.date with
       | some (some dp), some d => some (d - dp - 1)
       | _, _ => none) :: restGo ((t, r.date) :: m) rs

/-- The `rest` series, positionally aligned with its input rows. -/
def restValues (rows : List Appearance) : List (Option Int) :=
  restGo [] rows

/-- The `teams` table with its `rest` column (`teams['rest'] = rest`). -/
def teamsRest (gs : List Game) : List (Appearance × Option Int) :=
  (teams gs).zip (restValues (teams gs))

/-! ### The Re-widener (pivot)

`pd.pivot_table(teams, values='rest', index=['game_id', 'date'],
columns='home_away')` groups the appearance rows by the `(game_id, date)`
key (rows with a `NaT` date are dropped, as `groupby` drops missing
keys), aggregates the non-missing `rest` values of each `(key, role)`
cell by their mean (the default `aggfunc`), drops rows whose cells are
all missing (the default `dropna=True`), and sorts by the key.  The
columns are then renamed `away_rest` / `home_rest`. -/

/-- One row of the `by_game` wide table. -/
structure ByGameRow where
  game_id : Nat
  date : Int
  away_rest : Option Rat
  home_rest : Option Rat
deriving DecidableEq, Repr

/-- Sort key of the pivot output: the `(game_id, date)` index. -/
def keyLE (a b : Nat × Int) : Prop :=
  a.1 < b.1 ∨ (a.1 = b.1 ∧ a.2 ≤ b.2)

instance : DecidableRel keyLE := fun a b => by
  unfold keyLE; infer_instance

instance : IsTotal (Nat × Int) keyLE := ⟨by
  intro a b; unfold keyLE; omega⟩

instance : IsTrans (Nat × Int) keyLE := ⟨by
  intro a b c; unfold keyLE; omega⟩

/-- The distinct `(game_id, date)` keys of the appearance rows, sorted. -/
def pivotKeys (rows : List (Appearance × Option Int)) : List (Nat × Int) :=
  List.insertionSort keyLE
    ((rows.filterMap (fun p => p.1.date.map (fun d => (p.1.game_id, d)))).dedup)

/-- Does an appearance row fall into the pivot cell of key `k` and role
`ro`? -/
def cellPred (k : Nat × Int) (ro : Role) (q : Appearance × Option Int) : Prop :=
  q.1.game_id = k.1 ∧ q.1.date = some k.2 ∧ q.1.home_away = ro

instance (k : Nat × Int) (ro : Role) : DecidablePred (cellPred k ro) := fun q => by
  unfold cellPred; infer_instance

/-- One cell of the pivot: the mean of the non-missing `rest` values of
the rows with the given key and role; missing when no such value exists. -/
def roleCell (rows : List (Appearance × Option Int)) (k : Nat × Int) (ro : Role) :
    Option Rat :=
  let vs : List Int := rows.filterMap (fun q =>
    if cellPred k ro q then q.2 else none)
  if vs.isEmpty then none
  else some (Rat.divInt vs.sum vs.length)

/-- The `by_game` table: one row per key, cells per role, rows with both
cells missing dropped. -/
def by_game (rows : List (Appearance × Option Int)) : List ByGameRow :=
  (pivotKeys rows).filterMap (fun k =>
    let a := roleCell rows k Role.away_team
    let h := roleCell rows k Role.home_team
    if a.isNone ∧ h.isNone then none else some ⟨k.1, k.2, a, h⟩)

/-! ### The joined games table -/

/-- One row of `games_rest`: after
`pd.concat([games, by_game], axis='columns').dropna()` every field is
present. -/
structure GameRest where
  game_id : Nat
  date : Int
  away_team : String
  away_points : Int
  home_team : String
  home_points : Int
  away_rest : Rat
  home_rest : Rat
deriving DecidableEq, Repr

/-- The row `pd.concat([games, by_game], axis='columns').dropna()`
produces for one game: align the game with the `by_game` row of its
`(game_id, date)` key and keep it only when every field, including both
rest values, is present. -/
def joinRow (bg : List ByGameRow) (g : Game) : Option GameRest :=
  match g.date, g.away_team, g.away_points, g.home_team, g.home_points with
  | some d, some aT, some aP, some hT, some hP =>
    match bg.find? (fun b => decide (b.game_id = g.game_id ∧ b.date = d)) with
    | some b =>
      match b.away_rest, b.home_rest with
      | some aR, some hR => some ⟨g.game_id, d, aT, aP, hT, hP, aR, hR⟩
      | _, _ => none
    | none => none
  | _, _, _, _, _ => none

/-- `games_rest = pd.concat([games, by_game], axis='columns').dropna()`. -/
def games_rest (gs : List Game) : List GameRest :=
  gs.filterMap (joinRow (by_game (teamsRest gs)))

/-- Whether a game has a `by_game` row with both rest cells defined
(equivalently: a defined computed rest value for each side). -/
def bothRestDefined (gs : List Game) (g : Game) : Bool :=
  match g.date with
  | none => false
  | some d =>
    (roleCell (teamsRest gs) (g.game_id, d) Role.away_team).isSome &&
      (roleCell (teamsRest gs) (g.game_id, d) Role.home_team).isSome

/-! ### Re-melting the wide table

Modelled from the spec: the round-trip property of §8 melts the
re-widened table back to one row per `(game key, role)` carrying the
rest value of that side; the notebook itself keeps only the wide form. -/

/-- One row of the re-melted wide table. -/
structure MeltedRest where
  game_id : Nat
  date : Int
  home_away : Role
  rest : Option Rat
deriving DecidableEq, Repr

/-- Melt `by_game` back to long form: an away-side and a home-side row
per game. -/
def reMelt (bs : List ByGameRow) : List MeltedRest :=
  bs.map (fun b => ⟨b.game_id, b.date, Role.away_team, b.away_rest⟩) ++
    bs.map (fun b => ⟨b.game_id, b.date, Role.home_team, b.home_rest⟩)

/-! ### The rest-advantage analysis

Modelled from the spec: the notebook loads the solution from
`solutions/tidy_rest_advantage.py`, which is not part of the source
tree; its skeleton and spec §4.4 give the computation: the booleans
`home_more_rested = home_rest > away_rest` and
`home_won = home_points > away_points`, then the mean of `home_won`
grouped by `home_more_rested` (groups sorted `False` before `True`,
as `groupby` sorts keys, and only present key values form groups). -/

/-- Did the home team have more rest? -/
def home_more_rested (r : GameRest) : Bool :=
  decide (r.away_rest < r.home_rest)

/-- Did the home team win? -/
def home_won (r : GameRest) : Bool :=
  decide (r.away_points < r.home_points)

/-- Mean of a boolean series (`True` counting 1), as `Series.mean`:
the number of `True` entries over the length. -/
def meanBool (l : List Bool) : Rat :=
  Rat.divInt (l.count true : Nat) (l.length : Nat)

/-- Mean of `home_won` grouped by `home_more_rested`: one `(key, mean)`
pair per key value present, `false` first. -/
def winRateByRest (rows : List GameRest) : List (Bool × Rat) :=
  ([false, true].filter (fun b => rows.any (fun r => home_more_rested r == b))).map
    (fun b => (b, meanBool ((rows.filter (fun r => home_more_rested r == b)).map home_won)))

/-! ### Statement-side descriptions of the rest computation -/

/-- The rest values assigned to the appearances of team `t`: the values
(positionally aligned) restricted to the rows whose team is `t`. -/
def maskTeam (t : String) (rows : List Appearance) (vals : List (Option Int)) :
    List (Option Int) :=
  ((rows.zip vals).filter (fun p => decide (p.1.team = some t))).map (fun p => p.2)

/-- The date column of team `t`'s appearances, in table order. -/
def datesOf (t : String) (rows : List Appearance) : List (Option Int) :=
  (rows.filter (fun r => decide (r.team = some t))).map (fun r => r.date)

/-- The defined dates of team `t`'s appearances, in table order. -/
def datesDef (t : String) (rows : List Appearance) : List Int :=
  (rows.filter (fun r => decide (r.team = some t))).filterMap (fun r => r.date)

/-- Day differences against a carried previous date (`none` when either
side is missing or there is no previous appearance). -/
def diffFrom (prev : Option (Option Int)) : List (Option Int) → List (Option Int)
  | [] => []
  | d :: ds =>
    (match prev, d with
     | some (some dp), some dd => some (dd - dp - 1)
     | _, _ => none) :: diffFrom (some d) ds

/-- `rest = (date[i] - date[i-1]).days - 1` for the appearances after a
given previous date. -/
def restSpecGo (dp : Int) : List Int → List (Option Int)
  | [] => []
  | d :: ds => some (d - dp - 1) :: restSpecGo d ds

/-- The claimed per-partition rest values: the first appearance is
undefined, every later appearance `i` gets `date[i] - date[i-1] - 1`. -/
def restSpec : List Int → List (Option Int)
  | [] => []
  | d :: ds => none :: restSpecGo d ds

lemma prevOf_cons_self (t : String) (d : Option Int) (m : List (String × Option Int)) :
    prevOf t ((t, d) :: m) = some d := by
  simp [prevOf]

lemma prevOf_cons_ne (t s : String) (h : s ≠ t) (d : Option Int)
    (m : List (String × Option Int)) :
    prevOf t ((s, d) :: m) = prevOf t m := by
  simp [prevOf, h]

lemma maskTeam_cons (t : String) (r : Appearance) (rs : List Appearance)
    (v : Option Int) (vs : List (Option Int)) :
    maskTeam t (r :: rs) (v :: vs) =
      if r.team = some t then v :: maskTeam t rs vs else maskTeam t rs vs := by
  by_cases h : r.team = some t <;>
    simp [maskTeam, List.zip_cons_cons, List.filter_cons, h]

lemma datesOf_cons (t : String) (r : Appearance) (rs : List Appearance) :
    datesOf t (r :: rs) =
      if r.team = some t then r.date :: datesOf t rs else datesOf t rs := by
  by_cases h : r.team = some t <;> simp [datesOf, List.filter_cons, h]

/-- The grouped diff, restricted to the rows of one team, is the diff of
that team's date column, continued from the carried state. -/
lemma restGo_mask (t : String) :
    ∀ (rows : List Appearance) (m : List (String × Option Int)),
      maskTeam t rows (restGo m rows) = diffFrom (prevOf t m) (datesOf t rows) := by
  intro rows
  induction rows with
  | nil => intro m; simp [maskTeam, restGo, datesOf, diffFrom]
  | cons r rs ih =>
    intro m
    match hr : r.team with
    | none =>
      have hne : ¬ r.team = some t := by rw [hr]; simp
      rw [show restGo m (r :: rs) = none :: restGo m rs by
            simp [restGo, hr],
        maskTeam_cons, if_neg hne, datesOf_cons, if_neg hne]
      exact ih m
    | some s =>
      rw [show restGo m (r :: rs) =
            (match prevOf s m, r.date with
             | some (some dp), some d => some (d - dp - 1)
             | _, _ => none) :: restGo ((s, r.date) :: m) rs by
          simp [restGo, hr]]
      by_cases hst : s = t
      · subst hst
        have hpe : r.team = some s := hr
        rw [maskTeam_cons, if_pos hpe, datesOf_cons, if_pos hpe,
          ih ((s, r.date) :: m), prevOf_cons_self]
        rfl
      · have hne : ¬ r.team = some t := by rw [hr]; simp [hst]
        rw [maskTeam_cons, if_neg hne, datesOf_cons, if_neg hne,
          ih ((s, r.date) :: m), prevOf_cons_ne t s hst]

lemma diffFrom_some_map (dp : Int) :
    ∀ ds : List Int, diffFrom (some (some dp)) (ds.map some) = restSpecGo dp ds
  | [] => rfl
  | d :: ds => congrArg (List.cons (some (d - dp - 1))) (diffFrom_some_map d ds)

lemma diffFrom_none_map (ds : List Int) :
    diffFrom none (ds.map some) = restSpec ds := by
  cases ds with
  | nil => rfl
  | cons d ds => exact congrArg (List.cons none) (diffFrom_some_map d ds)

lemma allSome_eq_map (l : List (Option Int)) (h : ∀ x ∈ l, x.isSome) :
    l = (l.filterMap id).map some := by
  induction l with
  | nil => rfl
  | cons x xs ih =>
    cases x with
    | none => exact absurd (h none (by simp)) (by simp)
    | some v =>
      rw [show (some v :: xs).filterMap id = v :: xs.filterMap id by
            simp [List.filterMap_cons]]
      rw [List.map_cons]
      exact congrArg _ (ih (fun y hy => h y (by simp [hy])))

lemma datesOf_eq_map (t : String) (rows : List Appearance)
    (hd : ∀ r ∈ rows, r.team = some t → r.date.isSome) :
    datesOf t rows = (datesDef t rows).map some := by
  have h : ∀ x ∈ datesOf t rows, x.isSome := by
    intro x hx
    simp only [datesOf, List.mem_map, List.mem_filter, decide_eq_true_eq] at hx
    obtain ⟨r, ⟨hr, ht⟩, hrx⟩ := hx
    exact hrx ▸ hd r hr ht
  rw [allSome_eq_map (datesOf t rows) h]
  congr 1
  simp [datesOf, datesDef, List.filterMap_map]

/-- The rest series restricted to one team equals the claimed formula on
that team's defined dates. -/
lemma rest_mask_eq (t : String) (rows : List Appearance)
    (hd : ∀ r ∈ rows, r.team = some t → r.date.isSome) :
    maskTeam t rows (restValues rows) = restSpec (datesDef t rows) := by
  rw [restValues, restGo_mask, datesOf_eq_map t rows hd]
  exact diffFrom_none_map _

lemma datesDef_length (t : String) (rows : List Appearance)
    (hd : ∀ r ∈ rows, r.team = some t → r.date.isSome) :
    (datesDef t rows).length =
      (rows.filter (fun r => decide (r.team = some t))).length := by
  have h := congrArg List.length (datesOf_eq_map t rows hd)
  simpa [datesOf] using h.symm

lemma restSpecGo_length (dp : Int) : ∀ ds : List Int, (restSpecGo dp ds).length = ds.length
  | [] => rfl
  | d :: ds => by simp [restSpecGo, restSpecGo_length d ds]

lemma restSpecGo_countP_some (dp : Int) :
    ∀ ds : List Int, (restSpecGo dp ds).countP (fun v => v.isSome) = ds.length
  | [] => rfl
  | d :: ds => by
    simp [restSpecGo, List.countP_cons, restSpecGo_countP_some d ds]

lemma restSpecGo_countP_none (dp : Int) :
    ∀ ds : List Int, (restSpecGo dp ds).countP (fun v => v.isNone) = 0
  | [] => rfl
  | d :: ds => by
    simp [restSpecGo, List.countP_cons, restSpecGo_countP_none d ds]

/-- The Bulls appearances of the spec's concrete scenario: Chicago Bulls
appears on 2015-10-27 and next on 2015-10-30. -/
def bullsOctRows : List Appearance :=
  [⟨1, some (daysFromCivil 2015 10 27), Role.home_team, some "Chicago Bulls"⟩,
   ⟨16, some (daysFromCivil 2015 10 30), Role.away_team, some "Chicago Bulls"⟩]

/-- **C1**: within every team partition (the rest series restricted to
the appearances of one team, in table order), the first appearance gets
a missing rest value — not zero — and every later appearance `i` gets
`(date[i] - date[i-1]).days - 1`; concretely, Chicago Bulls appearing on
2015-10-27 and next on 2015-10-30 gets rest `none` then `some 2`. -/
theorem c1_rest_per_partition (rows : List Appearance) (t : String)
    (hd : ∀ r ∈ rows, r.team = some t → r.date.isSome) :
    maskTeam t rows (restValues rows) = restSpec (datesDef t rows) ∧
    restValues bullsOctRows = [none, some 2] :=
  ⟨rest_mask_eq t rows hd, by decide⟩

/-- Witness for C1 at the concrete Bulls scenario. -/
theorem c1_rest_per_partition_witness :
    (∀ r ∈ bullsOctRows, r.team = some "Chicago Bulls" → r.date.isSome) ∧
    (maskTeam "Chicago Bulls" bullsOctRows (restValues bullsOctRows) =
        restSpec (datesDef "Chicago Bulls" bullsOctRows) ∧
      restValues bullsOctRows = [none, some 2]) :=
  ⟨by decide, c1_rest_per_partition bullsOctRows "Chicago Bulls" (by decide)⟩

/-- **C4**: a team with `N ≥ 1` appearances (with defined dates) gets
exactly `N` rest values: `N - 1` defined ones, exactly `1` undefined
one, and the undefined one is the first appearance.  In particular a
team appearing only once yields zero defined rest values (the
computation is total, so no error is possible). -/
theorem c4_rest_value_counts (rows : List Appearance) (t : String)
    (hd : ∀ r ∈ rows, r.team = some t → r.date.isSome)
    (hN : 1 ≤ (rows.filter (fun r => decide (r.team = some t))).length) :
    (maskTeam t rows (restValues rows)).length =
        (rows.filter (fun r => decide (r.team = some t))).length ∧
    (maskTeam t rows (restValues rows)).countP (fun v => v.isSome) =
        (rows.filter (fun r => decide (r.team = some t))).length - 1 ∧
    (maskTeam t rows (restValues rows)).countP (fun v => v.isNone) = 1 ∧
    (maskTeam t rows (restValues rows)).head? = some none := by
  rw [rest_mask_eq t rows hd, ← datesDef_length t rows hd]
  rcases hds : datesDef t rows with _ | ⟨d, ds⟩
  · have h0 := datesDef_length t rows hd
    rw [hds] at h0
    simp at h0
    omega
  · simp [restSpec, List.countP_cons, restSpecGo_length,
      restSpecGo_countP_some, restSpecGo_countP_none]

/-- Witness for C4: a team with three appearances. -/
theorem c4_rest_value_counts_witness :
    (∀ r ∈ bullsOctRows, r.team = some "Chicago Bulls" → r.date.isSome) ∧
    1 ≤ (bullsOctRows.filter
      (fun r => decide (r.team = some "Chicago Bulls"))).length ∧
    ((maskTeam "Chicago Bulls" bullsOctRows (restValues bullsOctRows)).length =
        (bullsOctRows.filter
          (fun r => decide (r.team = some "Chicago Bulls"))).length ∧
      (maskTeam "Chicago Bulls" bullsOctRows
            (restValues bullsOctRows)).countP (fun v => v.isSome) =
        (bullsOctRows.filter
          (fun r => decide (r.team = some "Chicago Bulls"))).length - 1 ∧
      (maskTeam "Chicago Bulls" bullsOctRows
            (restValues bullsOctRows)).countP (fun v => v.isNone) = 1 ∧
      (maskTeam "Chicago Bulls" bullsOctRows
            (restValues bullsOctRows)).head? = some none) :=
  ⟨by decide, by decide,
    c4_rest_value_counts bullsOctRows "Chicago Bulls" (by decide) (by decide)⟩

/-! ### The Reshaper's shape -/

/-- A small concrete season: two games between the same two teams three
days apart, used to instantiate the quantified claims. -/
def sg : List Game :=
  [⟨0, some (daysFromCivil 2015 10 27), some "A", some 100, some "B", some 90⟩,
   ⟨1, some (daysFromCivil 2015 10 30), some "A", some 95, some "B", some 99⟩]

lemma teams_perm (gs : List Game) : List.Perm (teams gs) (meltRows gs) :=
  List.perm_insertionSort appLE (meltRows gs)

lemma countP_game_id_nodup (gs : List Game)
    (hnd : (gs.map (fun g => g.game_id)).Nodup) (g : Game) (hg : g ∈ gs) :
    gs.countP (fun g2 => decide (g2.game_id = g.game_id)) = 1 := by
  induction gs with
  | nil => cases hg
  | cons x xs ih =>
    rw [List.map_cons, List.nodup_cons] at hnd
    rw [List.countP_cons]
    rcases List.mem_cons.mp hg with rfl | hmem
    · have h0 : xs.countP (fun g2 => decide (g2.game_id = g.game_id)) = 0 := by
        rw [List.countP_eq_zero]
        intro a ha hpa
        exact hnd.1 (List.mem_map.mpr ⟨a, ha, of_decide_eq_true hpa⟩)
      simp [h0]
    · have hx : ¬ x.game_id = g.game_id := by
        intro he
        exact hnd.1 (he ▸ List.mem_map.mpr ⟨g, hmem, rfl⟩)
      have hxb : (decide (x.game_id = g.game_id)) = false := by simp [hx]
      simp only [hxb, Bool.false_eq_true, if_false, Nat.add_zero]
      exact ih hnd.2 hmem

lemma countP_meltRows (gs : List Game) (k : Nat) :
    (meltRows gs).countP (fun a => decide (a.game_id = k)) =
      2 * gs.countP (fun g => decide (g.game_id = k)) := by
  rw [meltRows, List.countP_append, List.countP_map, List.countP_map]
  have ha : ((fun a => decide (a.game_id = k)) ∘ awayApp) =
      (fun g : Game => decide (g.game_id = k)) := rfl
  have hh : ((fun a => decide (a.game_id = k)) ∘ homeApp) =
      (fun g : Game => decide (g.game_id = k)) := rfl
  rw [ha, hh]
  omega

/-- **C3**: the Reshaper produces exactly two appearances per game — the
away-side row and the home-side row, each carrying the game's key, date
and the corresponding team name — and the game ids of the output are
exactly the game ids of the input. -/
theorem c3_melt_two_rows_per_game (gs : List Game)
    (hnd : (gs.map (fun g => g.game_id)).Nodup) :
    (∀ g ∈ gs,
      ((teams gs).filter (fun a => decide (a.game_id = g.game_id))).length = 2 ∧
      awayApp g ∈ teams gs ∧ homeApp g ∈ teams gs) ∧
    ((teams gs).map (fun a => a.game_id)).toFinset =
      (gs.map (fun g => g.game_id)).toFinset := by
  constructor
  · intro g hg
    refine ⟨?_, ?_, ?_⟩
    · rw [← List.countP_eq_length_filter, (teams_perm gs).countP_eq,
        countP_meltRows, countP_game_id_nodup gs hnd g hg]
    · exact (teams_perm gs).mem_iff.mpr
        (List.mem_append_left _ (List.mem_map_of_mem awayApp hg))
    · exact (teams_perm gs).mem_iff.mpr
        (List.mem_append_right _ (List.mem_map_of_mem homeApp hg))
  · have hperm : List.Perm ((teams gs).map (fun a => a.game_id))
        ((meltRows gs).map (fun a => a.game_id)) := (teams_perm gs).map _
    rw [List.toFinset_eq_of_perm _ _ hperm, meltRows,
      List.map_append, List.map_map, List.map_map]
    have ha : ((fun a : Appearance => a.game_id) ∘ awayApp) =
        (fun g : Game => g.game_id) := rfl
    have hh : ((fun a : Appearance => a.game_id) ∘ homeApp) =
        (fun g : Game => g.game_id) := rfl
    rw [ha, hh, List.toFinset_append, Finset.union_self]

/-- Witness for C3: a two-game list. -/
theorem c3_melt_two_rows_per_game_witness :
    ((sg.map (fun g => g.game_id)).Nodup) ∧
    ((∀ g ∈ sg,
      ((teams sg).filter (fun a => decide (a.game_id = g.game_id))).length = 2 ∧
      awayApp g ∈ teams sg ∧ homeApp g ∈ teams sg) ∧
    ((teams sg).map (fun a => a.game_id)).toFinset =
      (sg.map (fun g => g.game_id)).toFinset) :=
  ⟨by decide, c3_melt_two_rows_per_game sg (by decide)⟩

/-! ### Ordering of the partitions (claim C5)

`teams` is sorted by `sort_values(['game_id', 'date'])`: the game id is
the primary key and the date only a secondary one.  A team partition is
therefore ordered by game id, not by date; the two orders agree exactly
when the game ids are assigned in chronological order (as they are in
the notebook's season file), but not for every input. -/

/-- Two games whose ids are not in date order: the Bulls appear in game
0 on 2015-10-30 and in game 1 on 2015-10-27. -/
def cexGames : List Game :=
  [⟨0, some (daysFromCivil 2015 10 30), some "Detroit Pistons", some 106,
      some "Chicago Bulls", some 94⟩,
   ⟨1, some (daysFromCivil 2015 10 27), some "Cleveland Cavaliers", some 95,
      some "Chicago Bulls", some 97⟩]

/-- **C5, counterexample**: on `cexGames` the Chicago Bulls partition of
the `teams` table is ordered 2015-10-30 before 2015-10-27 — not by date
ascending, contradicting the claim. -/
theorem c5_counterexample :
    ((teams cexGames).filter
        (fun a => decide (a.team = some "Chicago Bulls"))).map (fun a => a.date) =
      [some (daysFromCivil 2015 10 30), some (daysFromCivil 2015 10 27)] ∧
    daysFromCivil 2015 10 27 < daysFromCivil 2015 10 30 := by decide

/-- **C5, amended**: before the per-team diff is computed, every team
partition of the `teams` table is ordered by game key ascending, with
the date as secondary key (`sort_values(['game_id', 'date'])`), which is
a deterministic order; it coincides with date order only when game keys
are assigned chronologically. -/
theorem c5_partition_sorted_by_game_id (gs : List Game) (t : String) :
    ((teams gs).filter (fun a => decide (a.team = some t))).Pairwise appLE := by
  have hs : (teams gs).Pairwise appLE :=
    List.sorted_insertionSort appLE (meltRows gs)
  exact hs.sublist (List.filter_sublist _)

/-! ### Uniqueness of the pivot keys (claim C8) -/

lemma mem_of_mem_keyMap (f : Nat × Int → Option ByGameRow)
    (hf : ∀ k b, f k = some b → (b.game_id, b.date) = k)
    (l : List (Nat × Int)) (x : Nat × Int)
    (hx : x ∈ (l.filterMap f).map (fun b => (b.game_id, b.date))) : x ∈ l := by
  obtain ⟨b, hb, hbx⟩ := List.mem_map.mp hx
  obtain ⟨k, hk, hfk⟩ := List.mem_filterMap.mp hb
  rw [← hbx, hf k b hfk]
  exact hk

lemma nodup_keyMap (f : Nat × Int → Option ByGameRow)
    (hf : ∀ k b, f k = some b → (b.game_id, b.date) = k) :
    ∀ l : List (Nat × Int), l.Nodup →
      ((l.filterMap f).map (fun b => (b.game_id, b.date))).Nodup := by
  intro l
  induction l with
  | nil => simp
  | cons k ks ih =>
    intro h
    rw [List.nodup_cons] at h
    rw [List.filterMap_cons]
    cases hfk : f k with
    | none => exact ih h.2
    | some b =>
      rw [List.map_cons, List.nodup_cons]
      refine ⟨fun hmem => ?_, ih h.2⟩
      have hk2 : (b.game_id, b.date) ∈ ks := mem_of_mem_keyMap f hf ks _ hmem
      rw [hf k b hfk] at hk2
      exact h.1 hk2

/-- **C8**: in the `by_game` table, every `(game_id, date)` key appears
at most once — for every input, hence in particular for every appearance
set reachable through the Reshaper. -/
theorem c8_by_game_keys_unique (rows : List (Appearance × Option Int)) :
    ((by_game rows).map (fun b => (b.game_id, b.date))).Nodup := by
  have hnd : (pivotKeys rows).Nodup :=
    ((List.perm_insertionSort keyLE _).nodup_iff).mpr (List.nodup_dedup _)
  refine nodup_keyMap _ ?_ (pivotKeys rows) hnd
  intro k b hfk
  by_cases hc : (roleCell rows k Role.away_team).isNone ∧
      (roleCell rows k Role.home_team).isNone
  · simp only [hc, if_true] at hfk
    simp at hfk
  · simp only [hc, if_false] at hfk
    cases hfk
    rfl

/-! ### The pivot/melt round trip (claim C2) -/

lemma restGo_length : ∀ (rows : List Appearance) (m : List (String × Option Int)),
    (restGo m rows).length = rows.length := by
  intro rows
  induction rows with
  | nil => intro m; rfl
  | cons r rs ih =>
    intro m
    match hr : r.team with
    | none => simp [restGo, hr, ih]
    | some s => simp [restGo, hr, ih]

lemma teamsRest_map_fst (gs : List Game) :
    (teamsRest gs).map Prod.fst = teams gs := by
  apply List.map_fst_zip
  rw [restValues, restGo_length]

lemma mem_teamsRest_fst (gs : List Game) (p : Appearance × Option Int)
    (hp : p ∈ teamsRest gs) : p.1 ∈ teams gs := by
  obtain ⟨a, v⟩ := p
  exact (List.mem_zip hp).1

lemma countP_teamsRest (gs : List Game) (pred : Appearance → Bool) :
    (teamsRest gs).countP (fun q => pred q.1) = (teams gs).countP pred := by
  have h : ((teamsRest gs).map Prod.fst).countP pred =
      (teamsRest gs).countP (pred ∘ Prod.fst) := List.countP_map pred Prod.fst _
  rw [teamsRest_map_fst] at h
  exact h.symm

lemma mem_teams_game_id (gs : List Game) (a : Appearance) (ha : a ∈ teams gs) :
    ∃ g ∈ gs, a.game_id = g.game_id := by
  have hm := (teams_perm gs).mem_iff.mp ha
  rcases List.mem_append.mp hm with h | h <;>
    obtain ⟨g, hg, rfl⟩ := List.mem_map.mp h <;> exact ⟨g, hg, rfl⟩

/-- In the melted table, a game id carries exactly one row per role. -/
lemma countP_roleKey (gs : List Game)
    (hnd : (gs.map (fun g => g.game_id)).Nodup) (K : Nat) (ro : Role)
    (hK : ∃ g ∈ gs, K = g.game_id) :
    (teams gs).countP (fun a => decide (a.game_id = K ∧ a.home_away = ro)) = 1 := by
  obtain ⟨g0, hg0, rfl⟩ := hK
  rw [(teams_perm gs).countP_eq, meltRows, List.countP_append,
    List.countP_map, List.countP_map]
  have hone := countP_game_id_nodup gs hnd g0 hg0
  cases ro with
  | away_team =>
    have h1 : ((fun a => decide (a.game_id = g0.game_id ∧ a.home_away = Role.away_team)) ∘
        awayApp) = (fun g : Game => decide (g.game_id = g0.game_id)) := by
      funext g; simp [awayApp]
    have h2 : ((fun a => decide (a.game_id = g0.game_id ∧ a.home_away = Role.away_team)) ∘
        homeApp) = (fun _ : Game => false) := by
      funext g; simp [homeApp]
    rw [h1, h2, hone, List.countP_false]
    rfl
  | home_team =>
    have h1 : ((fun a => decide (a.game_id = g0.game_id ∧ a.home_away = Role.home_team)) ∘
        awayApp) = (fun _ : Game => false) := by
      funext g; simp [awayApp]
    have h2 : ((fun a => decide (a.game_id = g0.game_id ∧ a.home_away = Role.home_team)) ∘
        homeApp) = (fun g : Game => decide (g.game_id = g0.game_id)) := by
      funext g; simp [homeApp]
    rw [h1, h2, hone, List.countP_false]
    rfl

lemma filterMap_ite {α β : Type} (P : α → Prop) [DecidablePred P] (g : α → Option β) :
    ∀ l : List α,
      l.filterMap (fun a => if P a then g a else none) =
        (l.filter (fun a => decide (P a))).filterMap g := by
  intro l
  induction l with
  | nil => rfl
  | cons x xs ih =>
    by_cases h : P x
    · cases hgx : g x <;>
        simp [List.filterMap_cons, List.filter_cons, h, hgx, ih]
    · simp [List.filterMap_cons, List.filter_cons, h, ih]

lemma filter_eq_singleton_of_countP {α : Type} (l : List α) (pred : α → Bool)
    (p : α) (hp : p ∈ l) (hpp : pred p = true) (hc : l.countP pred = 1) :
    l.filter pred = [p] := by
  have hlen : (l.filter pred).length = 1 := by
    rw [← List.countP_eq_length_filter]; exact hc
  obtain ⟨x, hx⟩ := List.length_eq_one.mp hlen
  have hpm : p ∈ l.filter pred := List.mem_filter.mpr ⟨hp, hpp⟩
  rw [hx] at hpm
  simp at hpm
  rw [hx, hpm]

/-- A pivot cell whose key and role match exactly one row holds exactly
that row's rest value. -/
lemma roleCell_unique (rows : List (Appearance × Option Int)) (k : Nat × Int)
    (ro : Role) (p : Appearance × Option Int) (hp : p ∈ rows)
    (hpk : cellPred k ro p)
    (hc : rows.countP (fun q => decide (cellPred k ro q)) = 1) :
    roleCell rows k ro = p.2.map (fun v => (v : Rat)) := by
  unfold roleCell
  rw [filterMap_ite (cellPred k ro) (fun q => q.2) rows,
    filter_eq_singleton_of_countP rows _ p hp (by simpa using hpk) hc]
  cases hv : p.2 <;> simp [List.filterMap_cons, hv]

/-- A `by_game` row holds the two pivot cells of its key. -/
lemma by_game_mem_cells (rows : List (Appearance × Option Int)) (b : ByGameRow)
    (hb : b ∈ by_game rows) :
    b.away_rest = roleCell rows (b.game_id, b.date) Role.away_team ∧
    b.home_rest = roleCell rows (b.game_id, b.date) Role.home_team := by
  obtain ⟨k, hk, hfk⟩ := List.mem_filterMap.mp hb
  by_cases hc : (roleCell rows k Role.away_team).isNone ∧
      (roleCell rows k Role.home_team).isNone
  · simp only [hc, if_true] at hfk
    simp at hfk
  · simp only [hc, if_false] at hfk
    cases hfk
    exact ⟨rfl, rfl⟩

/-- **C2**: re-widening the rest-annotated appearances into `by_game`
and melting that wide table back recovers, for every appearance of a
game whose two rest cells are both defined, exactly that appearance's
rest value (cast to the rational the pivot's mean aggregation uses). -/
theorem c2_pivot_melt_round_trip (gs : List Game)
    (hnd : (gs.map (fun g => g.game_id)).Nodup)
    (p : Appearance × Option Int) (hp : p ∈ teamsRest gs)
    (b : ByGameRow) (hb : b ∈ by_game (teamsRest gs))
    (hkey : b.game_id = p.1.game_id ∧ some b.date = p.1.date)
    (ha : b.away_rest.isSome) (hh : b.home_rest.isSome) :
    ∃ m ∈ reMelt (by_game (teamsRest gs)),
      m.game_id = p.1.game_id ∧ some m.date = p.1.date ∧
      m.home_away = p.1.home_away ∧ m.rest = p.2.map (fun v => (v : Rat)) := by
  obtain ⟨hk1, hk2⟩ := hkey
  obtain ⟨hca, hch⟩ := by_game_mem_cells _ b hb
  have hpk : cellPred (b.game_id, b.date) p.1.home_away p :=
    ⟨hk1.symm, hk2.symm, rfl⟩
  have hKex : ∃ g ∈ gs, b.game_id = g.game_id := by
    obtain ⟨g, hg, he⟩ := mem_teams_game_id gs p.1 (mem_teamsRest_fst gs p hp)
    exact ⟨g, hg, hk1.trans he⟩
  have hc1 : (teams gs).countP
      (fun a => decide (a.game_id = b.game_id ∧ a.home_away = p.1.home_away)) = 1 :=
    countP_roleKey gs hnd b.game_id p.1.home_away hKex
  have hc2 : (teamsRest gs).countP
      (fun q => decide (q.1.game_id = b.game_id ∧ q.1.home_away = p.1.home_away)) = 1 := by
    have h := countP_teamsRest gs
      (fun a => decide (a.game_id = b.game_id ∧ a.home_away = p.1.home_away))
    exact h.trans hc1
  have hle : (teamsRest gs).countP
        (fun q => decide (cellPred (b.game_id, b.date) p.1.home_away q)) ≤
      (teamsRest gs).countP
        (fun q => decide (q.1.game_id = b.game_id ∧ q.1.home_away = p.1.home_away)) := by
    apply List.countP_mono_left
    intro q hq hdq
    have hq2 := of_decide_eq_true hdq
    exact decide_eq_true ⟨hq2.1, hq2.2.2⟩
  have hge : 0 < (teamsRest gs).countP
      (fun q => decide (cellPred (b.game_id, b.date) p.1.home_away q)) :=
    List.countP_pos.mpr ⟨p, hp, decide_eq_true hpk⟩
  have hcf : (teamsRest gs).countP
      (fun q => decide (cellPred (b.game_id, b.date) p.1.home_away q)) = 1 := by
    omega
  have hcell : roleCell (teamsRest gs) (b.game_id, b.date) p.1.home_away =
      p.2.map (fun v => (v : Rat)) :=
    roleCell_unique (teamsRest gs) (b.game_id, b.date) p.1.home_away p hp hpk hcf
  cases hro : p.1.home_away with
  | away_team =>
    refine ⟨(⟨b.game_id, b.date, Role.away_team, b.away_rest⟩ : MeltedRest),
      ?_, ?_, ?_, ?_, ?_⟩
    · exact List.mem_append_left _ (List.mem_map_of_mem
        (fun b2 : ByGameRow =>
          (⟨b2.game_id, b2.date, Role.away_team, b2.away_rest⟩ : MeltedRest)) hb)
    · exact hk1
    · exact hk2
    · simp [hro]
    · show b.away_rest = p.2.map (fun v => (v : Rat))
      rw [hca, ← hro, hcell]
  | home_team =>
    refine ⟨(⟨b.game_id, b.date, Role.home_team, b.home_rest⟩ : MeltedRest),
      ?_, ?_, ?_, ?_, ?_⟩
    · exact List.mem_append_right _ (List.mem_map_of_mem
        (fun b2 : ByGameRow =>
          (⟨b2.game_id, b2.date, Role.home_team, b2.home_rest⟩ : MeltedRest)) hb)
    · exact hk1
    · exact hk2
    · simp [hro]
    · show b.home_rest = p.2.map (fun v => (v : Rat))
      rw [hch, ← hro, hcell]

/-! ### Exclusion of incomplete games (claims C6 and C10) -/

/-- Inversion of `games_rest` membership: every row of the joined table
comes from a game whose fields are all present and whose two rest cells
are both defined. -/
lemma games_rest_inv (gs : List Game) (gr : GameRest) (hgr : gr ∈ games_rest gs) :
    ∃ g ∈ gs, gr.game_id = g.game_id ∧ g.date = some gr.date ∧
      g.away_team = some gr.away_team ∧ g.away_points = some gr.away_points ∧
      g.home_team = some gr.home_team ∧ g.home_points = some gr.home_points ∧
      bothRestDefined gs g = true := by
  obtain ⟨g, hg, hF⟩ := List.mem_filterMap.mp hgr
  refine ⟨g, hg, ?_⟩
  unfold joinRow at hF
  split at hF
  case _ d aT aP hT hP hd hat hap hht hhp =>
    split at hF
    case _ b hfind =>
      split at hF
      case _ aR hR hbar hbhr =>
        cases hF
        have hbmem : b ∈ by_game (teamsRest gs) := List.mem_of_find?_eq_some hfind
        have hpred := of_decide_eq_true ((List.find?_eq_some.mp hfind).1)
        obtain ⟨hcells_a, hcells_h⟩ := by_game_mem_cells _ b hbmem
        refine ⟨rfl, hd, hat, hap, hht, hhp, ?_⟩
        unfold bothRestDefined
        rw [hd]
        show ((roleCell (teamsRest gs) (g.game_id, d) Role.away_team).isSome &&
          (roleCell (teamsRest gs) (g.game_id, d) Role.home_team).isSome) = true
        rw [← hpred.1, ← hpred.2, ← hcells_a, ← hcells_h, hbar, hbhr]
        rfl
      case _ => exact Option.noConfusion hF
    case _ => exact Option.noConfusion hF
  case _ => exact Option.noConfusion hF

/-- **C6**: a team's first appearance carries an explicit missing rest
marker (`none`, never zero), and every game for which either side's rest
cell is undefined is excluded from the `games_rest` table. -/
theorem c6_undefined_rest_excluded (gs : List Game)
    (hnd : (gs.map (fun g => g.game_id)).Nodup) :
    (∀ t, maskTeam t (teams gs) (restValues (teams gs)) = [] ∨
      (maskTeam t (teams gs) (restValues (teams gs))).head? = some none) ∧
    (∀ g ∈ gs, bothRestDefined gs g = false →
      ∀ gr ∈ games_rest gs, gr.game_id ≠ g.game_id) := by
  constructor
  · intro t
    have h : maskTeam t (teams gs) (restValues (teams gs)) =
        diffFrom none (datesOf t (teams gs)) := restGo_mask t (teams gs) []
    rcases hds : datesOf t (teams gs) with _ | ⟨d, ds⟩
    · left; rw [h, hds]; rfl
    · right; rw [h, hds]
      cases d <;> rfl
  · intro g hg hbr gr hgr heq
    obtain ⟨g2, hg2, hid, _, _, _, _, _, hbrd⟩ := games_rest_inv gs gr hgr
    have hgg : g2 = g :=
      List.inj_on_of_nodup_map hnd hg2 hg (by rw [← hid, heq])
    rw [hgg] at hbrd
    rw [hbrd] at hbr
    cases hbr

/-- Witness for C6 on the two-game season. -/
theorem c6_undefined_rest_excluded_witness :
    (sg.map (fun g => g.game_id)).Nodup ∧
    ((∀ t, maskTeam t (teams sg) (restValues (teams sg)) = [] ∨
      (maskTeam t (teams sg) (restValues (teams sg))).head? = some none) ∧
    (∀ g ∈ sg, bothRestDefined sg g = false →
      ∀ gr ∈ games_rest sg, gr.game_id ≠ g.game_id)) :=
  ⟨by decide, c6_undefined_rest_excluded sg (by decide)⟩

/-- **C10**: every row of `games_rest` has every field present (derived
from a fully populated game), and a game missing any attribute — its
date, a team name or a points value — is excluded from `games_rest`. -/
theorem c10_games_rest_complete (gs : List Game)
    (hnd : (gs.map (fun g => g.game_id)).Nodup) :
    (∀ gr ∈ games_rest gs, ∃ g ∈ gs, gr.game_id = g.game_id ∧
      g.date = some gr.date ∧ g.away_team = some gr.away_team ∧
      g.away_points = some gr.away_points ∧ g.home_team = some gr.home_team ∧
      g.home_points = some gr.home_points) ∧
    (∀ g ∈ gs, (g.date = none ∨ g.away_team = none ∨ g.away_points = none ∨
        g.home_team = none ∨ g.home_points = none) →
      ∀ gr ∈ games_rest gs, gr.game_id ≠ g.game_id) := by
  constructor
  · intro gr hgr
    obtain ⟨g, hg, hid, h1, h2, h3, h4, h5, _⟩ := games_rest_inv gs gr hgr
    exact ⟨g, hg, hid, h1, h2, h3, h4, h5⟩
  · intro g hg hmiss gr hgr heq
    obtain ⟨g2, hg2, hid, h1, h2, h3, h4, h5, _⟩ := games_rest_inv gs gr hgr
    have hgg : g2 = g :=
      List.inj_on_of_nodup_map hnd hg2 hg (by rw [← hid, heq])
    rw [hgg] at h1 h2 h3 h4 h5
    rcases hmiss with h | h | h | h | h
    · exact Option.noConfusion (h.symm.trans h1)
    · exact Option.noConfusion (h.symm.trans h2)
    · exact Option.noConfusion (h.symm.trans h3)
    · exact Option.noConfusion (h.symm.trans h4)
    · exact Option.noConfusion (h.symm.trans h5)

/-- A game with a missing home-points value, used to instantiate C10. -/
def gMissing : Game :=
  ⟨2, some (daysFromCivil 2015 11 2), some "A", some 101, some "B", none⟩

/-- Witness for C10: a season with a complete pair of games plus one
game lacking its home points. -/
theorem c10_games_rest_complete_witness :
    ((sg ++ [gMissing]).map (fun g => g.game_id)).Nodup ∧
    gMissing ∈ sg ++ [gMissing] ∧ gMissing.home_points = none ∧
    (∀ gr ∈ games_rest (sg ++ [gMissing]), gr.game_id ≠ gMissing.game_id) :=
  ⟨by decide, by decide, by decide,
    (c10_games_rest_complete (sg ++ [gMissing]) (by decide)).2 gMissing
      (by decide) (by decide)⟩

/-! ### Witness data for the round trip -/

/-- The away-side appearance of the second game of `sg`, with its
computed rest value. -/
def c2p : Appearance × Option Int :=
  (⟨1, some (daysFromCivil 2015 10 30), Role.away_team, some "A"⟩, some 2)

/-- The `by_game` row of the second game of `sg`. -/
def c2b : ByGameRow :=
  ⟨1, daysFromCivil 2015 10 30, some 2, some 2⟩

/-- Witness for C2 on the two-game season. -/
theorem c2_pivot_melt_round_trip_witness :
    (sg.map (fun g => g.game_id)).Nodup ∧
    c2p ∈ teamsRest sg ∧ c2b ∈ by_game (teamsRest sg) ∧
    (∃ m ∈ reMelt (by_game (teamsRest sg)),
      m.game_id = c2p.1.game_id ∧ some m.date = c2p.1.date ∧
      m.home_away = c2p.1.home_away ∧ m.rest = c2p.2.map (fun v => (v : Rat))) :=
  ⟨by decide, by decide, by decide,
    c2_pivot_melt_round_trip sg (by decide) c2p (by decide) c2b (by decide)
      ⟨by decide, by decide⟩ (by decide) (by decide)⟩

/-! ### The cleaning chain (claim C7) -/

lemma toGame_id (i : Nat) (r : RawRow) (g : Game) (h : toGame i r = .ok g) :
    g.game_id = i := by
  unfold toGame at h
  split at h
  · cases h; rfl
  · split at h
    · exact Except.noConfusion h
    · cases h; rfl

/-- Every game the cleaning loop emits comes from a row of the input at
the position its `game_id` records, and that row has at least 4
non-missing fields. -/
lemma cleanGo_ids : ∀ (rs : List RawRow) (i0 : Nat) (gsOk : List Game),
    cleanGo i0 rs = .ok gsOk → ∀ g ∈ gsOk, ∃ j r2, rs.get? j = some r2 ∧
      g.game_id = i0 + j ∧ 4 ≤ countNonMissing r2 := by
  intro rs
  induction rs with
  | nil =>
    intro i0 gsOk h g hg
    simp only [cleanGo] at h
    cases h
    cases hg
  | cons r rs ih =>
    intro i0 gsOk h g hg
    rw [cleanGo] at h
    by_cases hc : 4 ≤ countNonMissing r
    · rw [if_pos hc] at h
      cases ht : toGame i0 r with
      | error e => rw [ht] at h; exact Except.noConfusion h
      | ok g0 =>
        rw [ht] at h
        cases hr2 : cleanGo (i0 + 1) rs with
        | error e => rw [hr2] at h; exact Except.noConfusion h
        | ok gs2 =>
          rw [hr2] at h
          have h2 : Except.ok (g0 :: gs2) = (Except.ok gsOk : Except String (List Game)) := h
          injection h2 with h3
          subst h3
          rcases List.mem_cons.mp hg with rfl | hmem
          · refine ⟨0, r, rfl, ?_, hc⟩
            have := toGame_id i0 r g ht
            omega
          · obtain ⟨j, r2, hget, hid, hcnt⟩ := ih (i0 + 1) gs2 hr2 g hmem
            exact ⟨j + 1, r2, by simpa using hget, by omega, hcnt⟩
    · rw [if_neg hc] at h
      obtain ⟨j, r2, hget, hid, hcnt⟩ := ih (i0 + 1) gsOk h g hg
      exact ⟨j + 1, r2, by simpa using hget, by omega, hcnt⟩

lemma countP_not_split {α : Type} (p : α → Bool) :
    ∀ l : List α, l.countP p + l.countP (fun a => !(p a)) = l.length := by
  intro l
  induction l with
  | nil => rfl
  | cons x xs ih => cases hx : p x <;> simp [List.countP_cons, hx] <;> omega

/-- **C7**: every raw row with fewer than 4 non-missing fields is
dropped by the cleaner; the number of dropped rows is recoverable (kept
plus dropped counts sum to the input length); and when the cleaning run
succeeds no game — and hence no team appearance — carries the position
of a dropped row, so such a row reaches no output table and causes no
error. -/
theorem c7_malformed_rows_dropped (rs : List RawRow) :
    (∀ r ∈ rs, countNonMissing r < 4 → r ∉ keptRows rs) ∧
    (keptRows rs).length +
      rs.countP (fun r => decide (countNonMissing r < 4)) = rs.length ∧
    (∀ gsOk, cleanGames rs = .ok gsOk →
      ∀ i r2, rs.get? i = some r2 → countNonMissing r2 < 4 →
        (∀ g ∈ gsOk, g.game_id ≠ i) ∧ (∀ a ∈ teams gsOk, a.game_id ≠ i)) := by
  refine ⟨?_, ?_, ?_⟩
  · intro r hr hlt hmem
    have h4 := of_decide_eq_true (List.mem_filter.mp hmem).2
    omega
  · have h1 : (keptRows rs).length =
        rs.countP (fun r => decide (4 ≤ countNonMissing r)) := by
      rw [keptRows, ← List.countP_eq_length_filter]
    have h2 : (fun r => decide (countNonMissing r < 4)) =
        (fun r => !(decide (4 ≤ countNonMissing r))) := by
      funext r
      by_cases h : countNonMissing r < 4
      · have h4 : ¬ 4 ≤ countNonMissing r := by omega
        simp [h, h4]
      · have h4 : 4 ≤ countNonMissing r := by omega
        simp [h, h4]
    rw [h1, h2]
    exact countP_not_split _ rs
  · intro gsOk hclean i r2 hget hlt
    unfold cleanGames at hclean
    cases hgo : cleanGo 0 rs with
    | error e => rw [hgo] at hclean; exact Except.noConfusion hclean
    | ok gs0 =>
      rw [hgo] at hclean
      have heq : Except.ok (List.insertionSort gameLE gs0) =
          (Except.ok gsOk : Except String (List Game)) := hclean
      injection heq with heq2
      have hgames : ∀ g ∈ gsOk, g.game_id ≠ i := by
        intro g hgmem hgi
        have hmem0 : g ∈ gs0 := by
          rw [← heq2] at hgmem
          exact (List.perm_insertionSort gameLE gs0).mem_iff.mp hgmem
        obtain ⟨j, r3, hget3, hid, hcnt⟩ := cleanGo_ids rs 0 gs0 hgo g hmem0
        have hj : j = i := by omega
        rw [hj, hget] at hget3
        injection hget3 with hrr
        rw [← hrr] at hcnt
        omega
      refine ⟨hgames, ?_⟩
      intro a hamem hai
      obtain ⟨g, hgmem, hgid⟩ := mem_teams_game_id gsOk a hamem
      rw [hgid] at hai
      exact hgames g hgmem hai

/-- The month-separator row `October,,,,,,,,`: one non-missing field. -/
def octoberRow : RawRow :=
  ⟨some "October", none, none, none, none, none, none, none, none⟩

/-- A well-formed raw row (the date cell left missing). -/
def rawRowA : RawRow :=
  ⟨none, some "8:00 pm", some "Box Score", some "Detroit Pistons", some 106,
    some "Atlanta Hawks", some 94, none, none⟩

/-- A second well-formed raw row. -/
def rawRowB : RawRow :=
  ⟨none, some "7:30 pm", some "Box Score", some "Cleveland Cavaliers", some 95,
    some "Chicago Bulls", some 97, none, none⟩

/-- A raw table led by the month-separator row. -/
def wrs : List RawRow := [octoberRow, rawRowA, rawRowB]

/-- The games the cleaner produces from `wrs`: positions 1 and 2, the
separator row at position 0 gone. -/
def wclean : List Game :=
  [⟨1, none, some "Detroit Pistons", some 106, some "Atlanta Hawks", some 94⟩,
   ⟨2, none, some "Cleveland Cavaliers", some 95, some "Chicago Bulls", some 97⟩]

/-- Witness for C7: the `October,,,,,,,,` separator row is dropped,
countably, and appears in no output table. -/
theorem c7_malformed_rows_dropped_witness :
    octoberRow ∉ keptRows wrs ∧
    ((keptRows wrs).length +
      wrs.countP (fun r => decide (countNonMissing r < 4)) = wrs.length) ∧
    cleanGames wrs = .ok wclean ∧
    (∀ g ∈ wclean, g.game_id ≠ 0) ∧ (∀ a ∈ teams wclean, a.game_id ≠ 0) := by
  have h := c7_malformed_rows_dropped wrs
  have hc : cleanGames wrs = .ok wclean := by rfl
  have h3 := h.2.2 wclean hc 0 octoberRow (by rfl) (by decide)
  exact ⟨h.1 octoberRow (by decide) (by decide), h.2.1, hc, h3.1, h3.2⟩

/-! ### The rest-advantage analysis (claims C9) -/

/-- Scenario game A: home rest 3, away rest 1, home won. -/
def gameA : GameRest :=
  ⟨0, daysFromCivil 2015 10 27, "Away1", 90, "Home1", 100, 1, 3⟩

/-- Scenario game B: home rest 1, away rest 1, home lost. -/
def gameB : GameRest :=
  ⟨1, daysFromCivil 2015 10 28, "Away2", 100, "Home2", 90, 1, 1⟩

/-- **C9, counterexample**: on a one-game table whose only game has the
home side more rested, the grouped mean has a single entry, not two —
the claim's "yields exactly two numbers" fails as a general statement. -/
theorem c9_counterexample :
    (winRateByRest [gameA]).length = 1 ∧ ¬ (winRateByRest [gameA]).length = 2 := by
  decide

/-- **C9, amended**: the grouped mean has one entry per value of
`home_more_rested` present — at most two, and exactly two as soon as
both a more-rested and a not-more-rested game occur — and on the
two-game scenario it is exactly
`[(False, 0), (True, 1)]`: win rate 1.0 for the more-rested group and
0.0 for the other. -/
theorem c9_win_rate_groups (rows : List GameRest) :
    (winRateByRest rows).length ≤ 2 ∧
    ((∃ r ∈ rows, home_more_rested r = false) →
      (∃ r2 ∈ rows, home_more_rested r2 = true) →
      (winRateByRest rows).length = 2) ∧
    winRateByRest [gameA, gameB] = [(false, 0), (true, 1)] := by
  refine ⟨?_, ?_, by decide⟩
  · rw [winRateByRest, List.length_map]
    have h2 := List.length_filter_le
      (fun b => rows.any (fun r => home_more_rested r == b)) [false, true]
    simpa using h2
  · intro hFe hTe
    have haF : rows.any (fun r => home_more_rested r == false) = true := by
      rw [List.any_eq_true]
      obtain ⟨r, hr, he⟩ := hFe
      exact ⟨r, hr, by simp [he]⟩
    have haT : rows.any (fun r => home_more_rested r == true) = true := by
      rw [List.any_eq_true]
      obtain ⟨r, hr, he⟩ := hTe
      exact ⟨r, hr, by simp [he]⟩
    rw [winRateByRest, List.length_map]
    rw [show ([false, true].filter
        (fun b => rows.any (fun r => home_more_rested r == b))) = [false, true] by
      simp [List.filter_cons, haF, haT, hFe, hTe]]
    rfl

/-- Witness for the amended C9 at the two-game scenario. -/
theorem c9_win_rate_groups_witness :
    (∃ r ∈ [gameA, gameB], home_more_rested r = false) ∧
    (∃ r2 ∈ [gameA, gameB], home_more_rested r2 = true) ∧
    (winRateByRest [gameA, gameB]).length = 2 :=
  ⟨⟨gameB, by decide, by decide⟩, ⟨gameA, by decide, by decide⟩,
    (c9_win_rate_groups [gameA, gameB]).2.1
      ⟨gameB, by decide, by decide⟩ ⟨gameA, by decide, by decide⟩⟩

end Tidy
